import Mathlib

set_option maxRecDepth 100000

/-!
Verification of the `pipeline.py` batch data-cleaning pipeline.

The source is a pandas-based script defining one transformation class per
table (`CustomerTransformation`, `GeoTransformation`,
`OrderItemsTransformation`, `OrderPaymentsTransformation`,
`OrderReviewsTransformation`, `OrdersTransformation`,
`ProductsTransformation`, `SellersTransformation`,
`ProductCategoryNameTransformation`).  Each class holds a file path and a
`data` field (initially `None`), a `transform` method that reads the CSV
file with declared dtypes and computes derived columns, and an
`export_csv` method that writes `self.data` to a fixed file name inside an
output folder with `to_csv(path, index=False)`.

The embedding below models:
  * file contents as `List Char`;
  * the CSV layer (line splitting with blank lines skipped, comma
    splitting, serialization with a trailing newline per record) exactly as
    pandas `read_csv` / `to_csv` treat the simple, quote-free fragment the
    pipeline's data lives in;
  * pandas float64 cells as an extended-rational type `PFloat` with IEEE
    special values `nan` / `inf` / `ninf` (exact rational arithmetic in
    place of binary rounding; the pipeline's derivations only divide,
    multiply, add and compare, and the claims under study concern the
    zero/missing special cases, which `PFloat` reproduces exactly);
  * Python-level failures as an explicit error type `PyError`
    (`FileNotFoundError`, `EmptyDataError`, `ParserError`/`ValueError`
    from dtype coercion or a missing `parse_dates` column, `KeyError`
    from a missing column, and `AttributeError` from calling a method on
    `None`).

`transform` is modelled as a function from the optional source contents
(`none` = missing file) to `Except PyError TypedTable`; the `.ok` value is
what the Python code stores in `self.data` (the Python method itself
returns `None`).  `export_csv` is modelled as a function from the optional
stored table (`none` = `transform` not yet called) to an `ExportResult`
recording the destination, the `to_csv` options used, and the serialized
bytes.
-/

/-- Python-level errors surfaced by the pipeline, tagged by the Python
exception class that raises them. -/
inductive PyError where
  | fileNotFound (msg : String)
  | emptyData (msg : String)
  | valueError (msg : String)
  | keyError (msg : String)
  | attributeError (msg : String)
  | stateError (msg : String)
deriving DecidableEq, Repr

deriving instance DecidableEq for Except

/-- Structural gcd with explicit fuel (so that the kernel can evaluate it
on literals; used only when rendering a fraction in lowest terms). -/
def sgcd : Nat → Nat → Nat → Nat
  | 0, a, _ => a
  | fuel + 1, a, b => if a = 0 then b else sgcd fuel (b % a) a

/-- An exact rational with a positive denominator, as explicit
numerator/denominator data (kept unnormalized; kernel-computable, unlike
`ℚ` whose arithmetic normalizes through well-founded `Nat.gcd`). -/
structure PRat where
  num : Int
  den : Nat
  dpos : 0 < den

instance : DecidableEq PRat := fun a b =>
  if h : a.num = b.num ∧ a.den = b.den then
    .isTrue (by cases a; cases b; cases h.1; cases h.2; rfl)
  else
    .isFalse (fun he => h (by cases he; exact ⟨rfl, rfl⟩))

instance : Repr PRat := ⟨fun a _ => repr (a.num, a.den)⟩

/-- The rational value of a `PRat`. -/
def PRat.toRat (a : PRat) : ℚ := (a.num : ℚ) / (a.den : ℚ)

/-- A `PRat` from an integer. -/
def PRat.ofInt (n : Int) : PRat := ⟨n, 1, Nat.one_pos⟩

/-- Cross-multiplication product. -/
def PRat.mulP (a b : PRat) : PRat :=
  ⟨a.num * b.num, a.den * b.den, Nat.mul_pos a.dpos b.dpos⟩

/-- Cross-multiplication sum. -/
def PRat.addP (a b : PRat) : PRat :=
  ⟨a.num * (b.den : Int) + b.num * (a.den : Int), a.den * b.den, Nat.mul_pos a.dpos b.dpos⟩

/-- Quotient, defined when the divisor's numerator is nonzero. -/
def PRat.divP (a b : PRat) : PRat :=
  if hb : 0 < b.num then
    ⟨a.num * (b.den : Int), a.den * b.num.natAbs,
     Nat.mul_pos a.dpos (Int.natAbs_pos.mpr (Int.ne_of_gt hb))⟩
  else if hb' : b.num < 0 then
    ⟨-(a.num * (b.den : Int)), a.den * b.num.natAbs,
     Nat.mul_pos a.dpos (Int.natAbs_pos.mpr (Int.ne_of_lt hb'))⟩
  else a

/-- Strict order by cross multiplication. -/
def PRat.blt (a b : PRat) : Bool :=
  decide (a.num * (b.den : Int) < b.num * (a.den : Int))

/-- pandas float64 cell: an exact rational together with the IEEE special
values.  Missing values (`NaN`) and division by zero are the behaviours
the claims exercise; ordinary arithmetic is modelled exactly. -/
inductive PFloat where
  | nan
  | inf
  | ninf
  | val (q : PRat)
deriving DecidableEq, Repr

namespace PFloat

/-- IEEE multiplication on the model (`0 * ∞ = NaN`). -/
def mul : PFloat → PFloat → PFloat
  | nan, _ => nan
  | _, nan => nan
  | inf, inf => inf
  | inf, ninf => ninf
  | ninf, inf => ninf
  | ninf, ninf => inf
  | inf, val b => if b.num = 0 then nan else if 0 < b.num then inf else ninf
  | val a, inf => if a.num = 0 then nan else if 0 < a.num then inf else ninf
  | ninf, val b => if b.num = 0 then nan else if 0 < b.num then ninf else inf
  | val a, ninf => if a.num = 0 then nan else if 0 < a.num then ninf else inf
  | val a, val b => val (a.mulP b)

/-- IEEE addition on the model (`∞ + (-∞) = NaN`). -/
def add : PFloat → PFloat → PFloat
  | nan, _ => nan
  | _, nan => nan
  | inf, ninf => nan
  | ninf, inf => nan
  | inf, _ => inf
  | _, inf => inf
  | ninf, _ => ninf
  | _, ninf => ninf
  | val a, val b => val (a.addP b)

/-- IEEE division on the model: `x / 0` is `±∞` for `x ≠ 0` and `NaN`
for `x = 0` (the model has a single zero, matching the pipeline's
non-negative data). -/
def div : PFloat → PFloat → PFloat
  | nan, _ => nan
  | _, nan => nan
  | inf, inf => nan
  | inf, ninf => nan
  | ninf, inf => nan
  | ninf, ninf => nan
  | inf, val b => if 0 ≤ b.num then inf else ninf
  | ninf, val b => if 0 ≤ b.num then ninf else inf
  | val _, inf => val (PRat.ofInt 0)
  | val _, ninf => val (PRat.ofInt 0)
  | val a, val b =>
      if b.num = 0 then (if a.num = 0 then nan else if 0 < a.num then inf else ninf)
      else val (a.divP b)

/-- IEEE strict greater-than: any comparison with `NaN` is `false`. -/
def gt : PFloat → PFloat → Bool
  | nan, _ => false
  | _, nan => false
  | inf, inf => false
  | inf, _ => true
  | ninf, _ => false
  | val _, inf => false
  | val _, ninf => true
  | val a, val b => b.blt a

end PFloat

/-! ### The CSV byte layer -/

/-- File contents and cell contents are character lists. -/
abbrev Chars := List Char

/-- Split a character list at every occurrence of `sep`; always returns a
nonempty list of pieces. -/
def splitOnChar (sep : Char) : Chars → List Chars
  | [] => [[]]
  | x :: xs =>
    match splitOnChar sep xs with
    | [] => [[x]]
    | y :: ys => if x = sep then [] :: y :: ys else (x :: y) :: ys

/-- Join pieces with a separator character (inverse of `splitOnChar` on
separator-free pieces). -/
def joinWith (sep : Char) : List Chars → Chars
  | [] => []
  | [c] => c
  | c :: cs => c ++ sep :: joinWith sep cs

/-- Serialize records, terminating every record with a newline, as
`to_csv` does. -/
def unlinesNL : List Chars → Chars
  | [] => []
  | l :: ls => l ++ '\n' :: unlinesNL ls

/-- The record lines of a file: split on newlines and skip blank lines
(pandas `read_csv` default `skip_blank_lines=True`; the split also leaves
a final empty piece for the trailing newline, which the filter drops). -/
def csvLines (cs : Chars) : List Chars :=
  (splitOnChar '\n' cs).filter (fun l => l ≠ [])

/-! ### Scalar cell parsing (pandas dtype coercion) -/

/-- Numeric value of a digit string. -/
def digitsVal (cs : Chars) : Nat :=
  cs.foldl (fun n c => n * 10 + (c.toNat - 48)) 0

/-- All characters are decimal digits. -/
def allDigits (cs : Chars) : Bool :=
  cs.all (fun c => c.isDigit)

/-- Parse a nonempty digit string. -/
def parseNatChars (cs : Chars) : Option Nat :=
  if !cs.isEmpty && allDigits cs then some (digitsVal cs) else none

/-- Parse an optionally signed integer literal (pandas `int` coercion of a
text cell). -/
def parseIntChars : Chars → Option Int
  | '-' :: rest => (parseNatChars rest).map (fun n => -(n : Int))
  | cs => (parseNatChars cs).map (fun n => (n : Int))

/-- Parse an unsigned decimal literal `digits[.digits]` as an exact
rational (value `i + f / 10 ^ |f|`, kept over the denominator
`10 ^ |f|`). -/
def parseDecChars (cs : Chars) : Option PRat :=
  match splitOnChar '.' cs with
  | [i] => (parseNatChars i).map (fun n => PRat.ofInt (n : Int))
  | [i, f] =>
      if (!i.isEmpty || !f.isEmpty) && allDigits i && allDigits f then
        some ⟨(digitsVal i : Int) * ((10 : Int) ^ f.length) + (digitsVal f : Int),
              10 ^ f.length, Nat.pos_pow_of_pos f.length (by decide)⟩
      else none
  | _ => none

/-- Parse an optionally signed decimal literal. -/
def parseFloatChars : Chars → Option PRat
  | '-' :: rest => (parseDecChars rest).map (fun q => ⟨-q.num, q.den, q.dpos⟩)
  | cs => parseDecChars cs

/-- pandas `float` coercion of a text cell: the empty cell is missing
(`NaN`); otherwise the cell must be a decimal literal. -/
def parseFloatCell (cs : Chars) : Option PFloat :=
  if cs.isEmpty then some PFloat.nan else (parseFloatChars cs).map PFloat.val

/-- pandas `int` coercion of a text cell: the empty cell is `NaN`, which
an `int` column cannot hold, so coercion fails. -/
def parseIntCell (cs : Chars) : Option Int :=
  parseIntChars cs

/-- pandas nullable `Int64` coercion: the empty cell becomes `<NA>`,
otherwise the cell must be an integer literal. -/
def parseNullableIntCell (cs : Chars) : Option (Option Int) :=
  if cs.isEmpty then some none else (parseIntChars cs).map some

/-! ### Rendering cells back to text (`to_csv`) -/

/-- Decimal digits of a natural number. -/
def natDigits (n : Nat) : Chars := (toString n).data

/-- Least `k ≤ 30` with `d ∣ 10 ^ k`, if any. -/
def pow10Exp (d : Nat) : Option Nat :=
  (List.range 31).find? (fun k => 10 ^ k % d = 0)

/-- Render a rational with finite decimal expansion the way pandas prints
a float64: reduce to lowest terms, print integers with a trailing `.0`
and fractions with their shortest decimal digits.  (Rationals without a
finite decimal expansion never arise from the pipeline's data; they fall
back to a `num/den` form.) -/
def renderRat (q : PRat) : Chars :=
  let sign : Chars := if q.num < 0 then ['-'] else []
  let g := sgcd (q.num.natAbs + 1) q.num.natAbs q.den
  let n := q.num.natAbs / g
  let d := q.den / g
  match pow10Exp d with
  | some 0 => sign ++ natDigits n ++ ['.', '0']
  | some k =>
      let scaled := n * (10 ^ k / d)
      let ip := scaled / 10 ^ k
      let fp := scaled % 10 ^ k
      let fpDigits := natDigits fp
      sign ++ natDigits ip ++ '.' :: (List.replicate (k - fpDigits.length) '0' ++ fpDigits)
  | none => sign ++ natDigits n ++ '/' :: natDigits d

/-- Render a float cell: `to_csv` writes `NaN` as the empty cell. -/
def PFloat.render : PFloat → Chars
  | .nan => []
  | .inf => ('i' :: ['n', 'f'])
  | .ninf => ('-' :: ['i', 'n', 'f'])
  | .val q => renderRat q

/-! ### Typed tables -/

/-- A coerced cell value: text (pandas `object`/`str`), float64, int64,
or nullable Int64. -/
inductive PValue where
  | s (v : String)
  | f (v : PFloat)
  | i (v : Int)
  | ni (v : Option Int)
deriving DecidableEq, Repr

instance : Inhabited PValue := ⟨PValue.s ""⟩

/-- `to_csv` rendering of one cell (`<NA>` and `NaN` print empty). -/
def PValue.render : PValue → Chars
  | .s v => v.data
  | .f v => v.render
  | .i v => (toString v).data
  | .ni none => []
  | .ni (some n) => (toString n).data

/-- The in-memory table a transformation stores in `self.data`: named
columns in order, rows in file order. -/
structure TypedTable where
  header : List String
  rows : List (List PValue)
deriving DecidableEq, Repr

/-- Serialize one data row (comma-joined rendered cells). -/
def serializeRow (r : List PValue) : Chars :=
  joinWith ',' (r.map PValue.render)

/-- `DataFrame.to_csv(..., index=False)`: the header line followed by one
line per row, each line newline-terminated, comma-delimited, with no
row-index column. -/
def serializeTable (t : TypedTable) : Chars :=
  unlinesNL (joinWith ',' (t.header.map String.data) :: t.rows.map serializeRow)

/-! ### Generic `read_csv` with a dtype mapping -/

/-- Declared scalar dtypes appearing in the pipeline's `dtype=` dicts. -/
inductive Dtype where
  | dstr
  | dint
  | dfloat
deriving DecidableEq, Repr

/-- A `dtype=` dict: column name to declared dtype. -/
abbrev Schema := List (String × Dtype)

/-- Coerce one raw cell to a declared dtype. -/
def coerceCell : Dtype → Chars → Option PValue
  | .dstr, cs => some (.s (String.mk cs))
  | .dint, cs => (parseIntCell cs).map PValue.i
  | .dfloat, cs => (parseFloatCell cs).map PValue.f

/-- dtype of a column: the dict entry if present.  A column absent from
the dict keeps its text form in this model (date columns listed in
`parse_dates` are likewise carried as text: on a present column
`to_datetime` never fails in `read_csv`'s lenient mode and round-trips
the rendered timestamp, while a `parse_dates` column absent from the
header raises `ValueError`, modelled in `readCsvTyped`). -/
def dtypeFor (schema : Schema) (col : String) : Dtype :=
  match schema.lookup col with
  | some d => d
  | none => .dstr

/-- Coerce the cells of one record against the per-column dtypes, cell
by cell: more cells than dtypes fails, a short record is padded with
missing cells at the end (`coerceRecord` below normalizes the record to
the expected width before this runs). -/
def coerceCells : List Dtype → List Chars → Option (List PValue)
  | [], [] => some []
  | [], _ :: _ => none
  | d :: ds, [] => (coerceCell d []).bind fun v => (coerceCells ds []).map (v :: ·)
  | d :: ds, c :: cs => (coerceCell d c).bind fun v => (coerceCells ds cs).map (v :: ·)

/-- The field count the reader expects of every data record: the header
width, or the width of the first data record when that record is wider —
pandas then treats its surplus leading fields as the implicit row index
(one extra field gives the usual unnamed index, more give a multi-level
one). -/
def expectedWidth (h : Nat) : List Chars → Nat
  | [] => h
  | l :: _ => max h (splitOnChar ',' l).length

/-- Coerce one data record: a record wider than the expected width is a
tokenizer error; otherwise the record is padded to the expected width
with missing cells at the end, the surplus leading fields (the implicit
index, which no dtype applies to and `to_csv(index=False)` never writes)
are dropped, and the named cells are coerced. -/
def coerceRecord (ds : List Dtype) (width : Nat) (cells : List Chars) : Option (List PValue) :=
  if width < cells.length then none
  else coerceCells ds ((cells ++ List.replicate (width - cells.length) []).drop (width - ds.length))

/-- Coerce every data line. -/
def rowsCoerce (ds : List Dtype) (width : Nat) : List Chars → Option (List (List PValue))
  | [] => some []
  | l :: ls => (coerceRecord ds width (splitOnChar ',' l)).bind fun r =>
      (rowsCoerce ds width ls).map (r :: ·)

/-- `pd.read_csv(filepath, dtype=schema, parse_dates=parseDates)`: a
missing file raises `FileNotFoundError`, a file with no records raises
`EmptyDataError`, the first record is the header; a column listed in
`parse_dates` but absent from the header raises `ValueError` when the
reader is built; then every data record is coerced against the declared
dtypes at the expected width. -/
def readCsvTyped (schema : Schema) (parseDates : List String) (source : Option Chars) :
    Except PyError TypedTable :=
  match source with
  | none => .error (.fileNotFound "No such file or directory")
  | some cs =>
    match csvLines cs with
    | [] => .error (.emptyData "No columns to parse from file")
    | h :: dataLines =>
      let header := (splitOnChar ',' h).map String.mk
      if parseDates.all (fun c => header.contains c) then
        match rowsCoerce (header.map (dtypeFor schema)) (expectedWidth header.length dataLines)
            dataLines with
        | none => .error (.valueError "could not coerce column to declared dtype")
        | some rows => .ok ⟨header, rows⟩
      else .error (.valueError "Missing column provided to parse_dates")

/-- Index of the first column with the given name (`df[name]` lookup). -/
def idxOf? (name : String) : List String → Option Nat
  | [] => none
  | c :: cs => if c = name then some 0 else (idxOf? name cs).map (· + 1)

/-- Cell of a row at a column index (total; rows always match the header
width after coercion). -/
def cellAt (r : List PValue) (i : Nat) : PValue :=
  (r.get? i).getD default

/-- Replace the cell at an index. -/
def setAt : List PValue → Nat → PValue → List PValue
  | [], _, _ => []
  | _ :: xs, 0, v => v :: xs
  | x :: xs, n + 1, v => x :: setAt xs n v

/-- `df.assign(name=f)` / whole-column `df.loc[...] = …`: overwrite the
column in place when it already exists, otherwise append it as the last
column. -/
def assignCol (t : TypedTable) (name : String) (f : List PValue → PValue) : TypedTable :=
  match idxOf? name t.header with
  | some i => ⟨t.header, t.rows.map fun r => setAt r i (f r)⟩
  | none => ⟨t.header ++ [name], t.rows.map fun r => r ++ [f r]⟩

/-- Float-column addition (`df["price"] + df["freight_value"]`); the
declared dtypes make both operands float cells. -/
def PValue.addF : PValue → PValue → PValue
  | .f a, .f b => .f (a.add b)
  | _, _ => .f .nan

/-- Int-column comparison (`df["review_score"] >= 4`); the declared dtype
makes the operand an int cell. -/
def PValue.geInt : PValue → Int → Bool
  | .i n, m => decide (m ≤ n)
  | _, _ => false

/-! ### Per-variant schemas (the `dtype=` dicts of `pipeline.py`) -/

def customerSchema : Schema :=
  [("customer_id", .dstr), ("customer_unique_id", .dstr),
   ("customer_zip_code_prefix", .dstr), ("customer_city", .dstr),
   ("customer_state", .dstr)]

def geoSchema : Schema :=
  [("geolocation_zip_code_prefix", .dstr), ("geolocation_lat", .dfloat),
   ("geolocation_lng", .dfloat), ("geolocation_city", .dstr),
   ("geolocation_state", .dstr)]

def orderItemsSchema : Schema :=
  [("order_id", .dstr), ("order_item_id", .dint), ("product_id", .dstr),
   ("seller_id", .dstr), ("price", .dfloat), ("freight_value", .dfloat)]

def orderPaymentsSchema : Schema :=
  [("order_id", .dstr), ("payment_sequential", .dint), ("payment_type", .dstr),
   ("payment_installments", .dint), ("payment_value", .dfloat)]

def orderReviewsSchema : Schema :=
  [("review_id", .dstr), ("order_id", .dstr), ("review_score", .dint),
   ("review_comment_title", .dstr), ("review_comment_message", .dstr),
   ("satisfaction", .dstr)]

def ordersSchema : Schema :=
  [("order_id", .dstr), ("customer_id", .dstr), ("order_status", .dstr)]

def sellersSchema : Schema :=
  [("seller_id", .dstr), ("seller_zip_code_prefix", .dstr),
   ("seller_city", .dstr), ("seller_state", .dstr)]

def productCategorySchema : Schema :=
  [("product_category_name", .dstr), ("product_category_name_english", .dstr)]

/-! ### The simple per-variant `transform` methods -/

def CustomerTransformation.transform (source : Option Chars) : Except PyError TypedTable :=
  readCsvTyped customerSchema [] source

def GeoTransformation.transform (source : Option Chars) : Except PyError TypedTable :=
  readCsvTyped geoSchema [] source

/-- `transform` of `OrderItemsTransformation`: read with dtypes, then
`assign(total_value = price + freight_value)`. -/
def OrderItemsTransformation.transform (source : Option Chars) : Except PyError TypedTable := do
  let t ← readCsvTyped orderItemsSchema ["shipping_limit_date"] source
  match idxOf? "price" t.header, idxOf? "freight_value" t.header with
  | some pi, some fi =>
      .ok (assignCol t "total_value" fun r => PValue.addF (cellAt r pi) (cellAt r fi))
  | none, _ => .error (.keyError "price")
  | some _, none => .error (.keyError "freight_value")

def OrderPaymentsTransformation.transform (source : Option Chars) : Except PyError TypedTable :=
  readCsvTyped orderPaymentsSchema [] source

/-- `transform` of `OrderReviewsTransformation`: read with dtypes, then
set `satisfaction` to `"happy"` on the rows where `review_score >= 4` and
to `"not happy"` on the complementary rows (the two `.loc` mask
assignments cover every row). -/
def OrderReviewsTransformation.transform (source : Option Chars) : Except PyError TypedTable := do
  let t ← readCsvTyped orderReviewsSchema ["review_creation_date", "review_answer_timestamp"]
    source
  match idxOf? "review_score" t.header with
  | some si =>
      .ok (assignCol t "satisfaction" fun r =>
        .s (if PValue.geInt (cellAt r si) 4 then "happy" else "not happy"))
  | none => .error (.keyError "review_score")

def OrdersTransformation.transform (source : Option Chars) : Except PyError TypedTable :=
  readCsvTyped ordersSchema ["order_purchase_timestamp", "order_approved_at",
    "order_delivered_carrier_date", "order_delivered_customer_date",
    "order_estimated_delivery_date"] source

def SellersTransformation.transform (source : Option Chars) : Except PyError TypedTable :=
  readCsvTyped sellersSchema [] source

def ProductCategoryNameTransformation.transform (source : Option Chars) : Except PyError TypedTable :=
  readCsvTyped productCategorySchema [] source

/-! ### `ProductsTransformation` -/

/-- The fixed `names=` list passed to `read_csv` in
`ProductsTransformation.transform`. -/
def productNames : List String :=
  ["product_id", "product_category_name", "product_name_length",
   "product_description_length", "product_photos_qty", "product_weight_g",
   "product_length_cm", "product_height_cm", "product_width_cm"]

/-- Column names of the stored products table: the nine assigned names
plus the two derived columns. -/
def productsHeader : List String :=
  productNames ++ ["product_volume_cc", "is_heavy"]

/-- One coerced products record, under the dtypes of the `read_csv`
call (`Int64` nullable integer for `product_photos_qty`, float64 for the
measurements, text otherwise). -/
structure ProductIn where
  product_id : String
  product_category_name : String
  product_name_length : PFloat
  product_description_length : PFloat
  product_photos_qty : Option Int
  product_weight_g : PFloat
  product_length_cm : PFloat
  product_height_cm : PFloat
  product_width_cm : PFloat
deriving DecidableEq, Repr

/-- A products record after the two derived columns are assigned. -/
structure ProductOut extends ProductIn where
  product_volume_cc : PFloat
  is_heavy : String
deriving DecidableEq, Repr

/-- With `names=` of width nine: a shorter record is padded with missing
cells at the end; the leading surplus cells of a longer record become the
row index (which `to_csv(index=False)` would not write back). -/
def normalizeProductCells (cells : List Chars) : List Chars :=
  if cells.length < 9 then cells ++ List.replicate (9 - cells.length) []
  else cells.drop (cells.length - 9)

/-- Coerce one products record against the declared dtypes, the names
assigned positionally. -/
def parseProductRow (cells : List Chars) : Option ProductIn :=
  match normalizeProductCells cells with
  | [c0, c1, c2, c3, c4, c5, c6, c7, c8] => do
      let nl ← parseFloatCell c2
      let dl ← parseFloatCell c3
      let pq ← parseNullableIntCell c4
      let w ← parseFloatCell c5
      let l ← parseFloatCell c6
      let hh ← parseFloatCell c7
      let wd ← parseFloatCell c8
      some ⟨String.mk c0, String.mk c1, nl, dl, pq, w, l, hh, wd⟩
  | _ => none

/-- The cut-off point for light/heavy packages, in cc per kg. -/
def volumetricWeight : PRat := PRat.ofInt 5000

/-- The derived volume column:
`product_volume_cc = product_length_cm * product_height_cm * product_width_cm`. -/
def productVol (r : ProductIn) : PFloat :=
  (r.product_length_cm.mul r.product_height_cm).mul r.product_width_cm

/-- The `is_heavy` mask of one row:
`product_volume_cc / (product_weight_g / 1000) > 5000`. -/
def productHeavyTest (r : ProductIn) : Bool :=
  ((productVol r).div (r.product_weight_g.div (PFloat.val (PRat.ofInt 1000)))).gt
    (PFloat.val volumetricWeight)

/-- The derived columns of `ProductsTransformation.transform`: the volume
column, and `is_heavy = "Heavy"` on the rows where the mask holds,
`"Light"` on the complementary rows (the two `.loc` mask assignments
cover every row). -/
def ProductsTransformation.derive (r : ProductIn) : ProductOut :=
  { toProductIn := r
    product_volume_cc := productVol r
    is_heavy := if productHeavyTest r then "Heavy" else "Light" }

/-- Coerce every products data record. -/
def rowsParseProducts : List Chars → Option (List ProductIn)
  | [] => some []
  | l :: ls => (parseProductRow (splitOnChar ',' l)).bind fun r =>
      (rowsParseProducts ls).map (r :: ·)

/-- `ProductsTransformation.transform` up to the list of derived records:
`read_csv(filepath, header=0, names=[...], dtype={...})` discards the
source header record and assigns the fixed names positionally, then the
derived columns are computed. -/
def ProductsTransformation.transformRows (source : Option Chars) : Except PyError (List ProductOut) :=
  match source with
  | none => .error (.fileNotFound "No such file or directory")
  | some cs =>
    match csvLines cs with
    | [] => .error (.emptyData "No columns to parse from file")
    | _hdr :: dataLines =>
      match rowsParseProducts dataLines with
      | none => .error (.valueError "could not coerce column to declared dtype")
      | some rows => .ok (rows.map ProductsTransformation.derive)

/-- Cells of one stored products row, in column order. -/
def ProductOut.toRow (r : ProductOut) : List PValue :=
  [.s r.product_id, .s r.product_category_name, .f r.product_name_length,
   .f r.product_description_length, .ni r.product_photos_qty,
   .f r.product_weight_g, .f r.product_length_cm, .f r.product_height_cm,
   .f r.product_width_cm, .f r.product_volume_cc, .s r.is_heavy]

/-- The table `ProductsTransformation.transform` stores in `self.data`. -/
def ProductsTransformation.transform (source : Option Chars) : Except PyError TypedTable :=
  (ProductsTransformation.transformRows source).map fun rows =>
    ⟨productsHeader, rows.map ProductOut.toRow⟩

/-! ### `export_csv` -/

/-- What one `export_csv` call does on success: the destination is the
output folder plus a fixed file name (`pathlib.Path(output_folder, name)`),
the folder is created with `mkdir(parents=True, exist_ok=True)`, and the
table is written with `to_csv(output_filepath, index=False)` — comma
separator, header record, no row-index column. -/
structure ExportResult where
  dirPath : List String
  fileName : String
  mkdirParents : Bool
  mkdirExistOk : Bool
  sep : Char
  writeHeader : Bool
  writeIndex : Bool
  content : Chars
deriving DecidableEq, Repr

/-- The body shared by every variant's `export_csv`, parameterized by the
variant's fixed file name.  When `transform` has not run, `self.data` is
still `None` and `self.data.to_csv(...)` raises
`AttributeError` (there is no guard in the source). -/
def exportCsvAs (name : String) (data : Option TypedTable) (outputFolder : List String) :
    Except PyError ExportResult :=
  match data with
  | none => .error (.attributeError "NoneType object has no attribute to_csv")
  | some t => .ok ⟨outputFolder, name, true, true, ',', true, false, serializeTable t⟩

def CustomerTransformation.export_csv : Option TypedTable → List String → Except PyError ExportResult :=
  exportCsvAs "customers_dataset_refined.csv"

def GeoTransformation.export_csv : Option TypedTable → List String → Except PyError ExportResult :=
  exportCsvAs "geolocation_dataset_refined.csv"

def OrderItemsTransformation.export_csv : Option TypedTable → List String → Except PyError ExportResult :=
  exportCsvAs "order_items_dataset_refined.csv"

def OrderPaymentsTransformation.export_csv : Option TypedTable → List String → Except PyError ExportResult :=
  exportCsvAs "order_payments_dataset_refined.csv"

def OrderReviewsTransformation.export_csv : Option TypedTable → List String → Except PyError ExportResult :=
  exportCsvAs "order_reviews_dataset_refined.csv"

def OrdersTransformation.export_csv : Option TypedTable → List String → Except PyError ExportResult :=
  exportCsvAs "orders_dataset_refined.csv"

def ProductsTransformation.export_csv : Option TypedTable → List String → Except PyError ExportResult :=
  exportCsvAs "products_dataset_refined.csv"

def SellersTransformation.export_csv : Option TypedTable → List String → Except PyError ExportResult :=
  exportCsvAs "sellers_dataset_refined.csv"

def ProductCategoryNameTransformation.export_csv : Option TypedTable → List String → Except PyError ExportResult :=
  exportCsvAs "product_category_refined.csv"

/-! ### The variant family -/

/-- The nine table-transformation variants of the pipeline. -/
inductive Variant where
  | customer
  | geo
  | orderItems
  | orderPayments
  | orderReviews
  | orders
  | products
  | sellers
  | categoryTranslation
deriving DecidableEq, Repr

def Variant.transform : Variant → Option Chars → Except PyError TypedTable
  | .customer => CustomerTransformation.transform
  | .geo => GeoTransformation.transform
  | .orderItems => OrderItemsTransformation.transform
  | .orderPayments => OrderPaymentsTransformation.transform
  | .orderReviews => OrderReviewsTransformation.transform
  | .orders => OrdersTransformation.transform
  | .products => ProductsTransformation.transform
  | .sellers => SellersTransformation.transform
  | .categoryTranslation => ProductCategoryNameTransformation.transform

def Variant.export_csv : Variant → Option TypedTable → List String → Except PyError ExportResult
  | .customer => CustomerTransformation.export_csv
  | .geo => GeoTransformation.export_csv
  | .orderItems => OrderItemsTransformation.export_csv
  | .orderPayments => OrderPaymentsTransformation.export_csv
  | .orderReviews => OrderReviewsTransformation.export_csv
  | .orders => OrdersTransformation.export_csv
  | .products => ProductsTransformation.export_csv
  | .sellers => SellersTransformation.export_csv
  | .categoryTranslation => ProductCategoryNameTransformation.export_csv

/-- The fixed output file name of each variant, from the source. -/
def Variant.fileName : Variant → String
  | .customer => "customers_dataset_refined.csv"
  | .geo => "geolocation_dataset_refined.csv"
  | .orderItems => "order_items_dataset_refined.csv"
  | .orderPayments => "order_payments_dataset_refined.csv"
  | .orderReviews => "order_reviews_dataset_refined.csv"
  | .orders => "orders_dataset_refined.csv"
  | .products => "products_dataset_refined.csv"
  | .sellers => "sellers_dataset_refined.csv"
  | .categoryTranslation => "product_category_refined.csv"

/-- Outcome of one attempted file write: the bytes sitting at the
destination afterwards (`none` = no file), and whether the write
succeeded. -/
structure WriteOutcome where
  fileContents : Option Chars
  ok : Bool
deriving DecidableEq, Repr

/-- `to_csv` streams the serialized table straight into the destination
file — no temporary file, no rename.  If the write fails after `k` bytes
the destination is left holding the prefix written so far. -/
def writeDirect (content : Chars) (failAfter : Option Nat) : WriteOutcome :=
  match failAfter with
  | none => ⟨some content, true⟩
  | some k => if content.length ≤ k then ⟨some content, true⟩
              else ⟨some (content.take k), false⟩

/-- The disk outcome of `export_csv` on a stored table, under a possible
write failure after `failAfter` bytes. -/
def exportWriteOutcome (t : TypedTable) (failAfter : Option Nat) : WriteOutcome :=
  writeDirect (serializeTable t) failAfter

/-- Success value of a transform, for stating concrete instances. -/
def tableOf (e : Except PyError TypedTable) : TypedTable :=
  match e with
  | .ok t => t
  | .error _ => ⟨[], []⟩

/-- Success value of the products record list. -/
def productRowsOf (e : Except PyError (List ProductOut)) : List ProductOut :=
  match e with
  | .ok rs => rs
  | .error _ => []

/-! ### Lemmas: the CSV codec -/

theorem splitOnChar_ne_nil (sep : Char) (cs : Chars) : splitOnChar sep cs ≠ [] := by
  cases cs with
  | nil => simp [splitOnChar]
  | cons x xs =>
    simp only [splitOnChar]
    cases h : splitOnChar sep xs with
    | nil => simp
    | cons y ys =>
      by_cases hx : x = sep <;> simp [hx]

theorem splitOnChar_no_sep {sep : Char} {cs : Chars} (h : sep ∉ cs) :
    splitOnChar sep cs = [cs] := by
  induction cs with
  | nil => rfl
  | cons x xs ih =>
    have hx : x ≠ sep := fun hxe => h (hxe ▸ List.mem_cons_self x xs)
    have hxs : sep ∉ xs := fun hm => h (List.mem_cons_of_mem x hm)
    simp only [splitOnChar, ih hxs]
    simp [hx]

theorem splitOnChar_append {sep : Char} {a : Chars} (b : Chars) (h : sep ∉ a) :
    splitOnChar sep (a ++ sep :: b) = a :: splitOnChar sep b := by
  induction a with
  | nil =>
    simp only [List.nil_append, splitOnChar]
    cases hb : splitOnChar sep b with
    | nil => exact absurd hb (splitOnChar_ne_nil sep b)
    | cons y ys => simp
  | cons x xs ih =>
    have hx : x ≠ sep := fun hxe => h (hxe ▸ List.mem_cons_self x xs)
    have hxs : sep ∉ xs := fun hm => h (List.mem_cons_of_mem x hm)
    simp only [List.cons_append, splitOnChar, List.append_eq]
    rw [ih hxs]
    simp [hx]

theorem mem_joinWith {sep : Char} {ps : List Chars} {c : Char}
    (h : c ∈ joinWith sep ps) : c = sep ∨ ∃ p ∈ ps, c ∈ p := by
  induction ps with
  | nil => simp [joinWith] at h
  | cons p ps ih =>
    cases ps with
    | nil =>
      simp only [joinWith] at h
      exact Or.inr ⟨p, List.mem_cons_self p [], h⟩
    | cons q qs =>
      simp only [joinWith, List.mem_append, List.mem_cons] at h
      rcases h with hp | hc | hrest
      · exact Or.inr ⟨p, List.mem_cons_self _ _, hp⟩
      · exact Or.inl hc
      · rcases ih hrest with hsep | ⟨r, hr, hcr⟩
        · exact Or.inl hsep
        · exact Or.inr ⟨r, List.mem_cons_of_mem p hr, hcr⟩

theorem joinWith_ne_nil_of_two (sep : Char) (p q : Chars) (ps : List Chars) :
    joinWith sep (p :: q :: ps) ≠ [] := by
  simp only [joinWith]
  cases p <;> simp

theorem splitOnChar_joinWith {sep : Char} {ps : List Chars} (hne : ps ≠ [])
    (hfree : ∀ p ∈ ps, sep ∉ p) : splitOnChar sep (joinWith sep ps) = ps := by
  induction ps with
  | nil => exact absurd rfl hne
  | cons p ps ih =>
    cases ps with
    | nil =>
      simp only [joinWith]
      exact splitOnChar_no_sep (hfree p (List.mem_cons_self p []))
    | cons q qs =>
      have hp : sep ∉ p := hfree p (List.mem_cons_self _ _)
      have hrest : ∀ r ∈ q :: qs, sep ∉ r := fun r hr => hfree r (List.mem_cons_of_mem p hr)
      simp only [joinWith]
      rw [splitOnChar_append _ hp, ih (by simp) hrest]

theorem csvLines_unlinesNL {ls : List Chars}
    (h : ∀ l ∈ ls, l ≠ [] ∧ '\n' ∉ l) : csvLines (unlinesNL ls) = ls := by
  induction ls with
  | nil => rfl
  | cons l ls ih =>
    have hl := h l (List.mem_cons_self _ _)
    have hls : ∀ x ∈ ls, x ≠ [] ∧ '\n' ∉ x := fun x hx => h x (List.mem_cons_of_mem l hx)
    have step : csvLines (unlinesNL (l :: ls)) = l :: csvLines (unlinesNL ls) := by
      simp only [unlinesNL, csvLines]
      rw [splitOnChar_append _ hl.2]
      simp [List.filter_cons, hl.1]
    rw [step, ih hls]

theorem csvLines_header {h : Chars} (rs : List Chars) (hne : h ≠ []) (hfree : '\n' ∉ h) :
    csvLines (unlinesNL (h :: rs)) = h :: csvLines (unlinesNL rs) := by
  simp only [unlinesNL, csvLines]
  rw [splitOnChar_append _ hfree]
  simp [List.filter_cons, hne]

/-! ### Lemmas: dtype coercion -/

/-- A coerced cell has the shape of its declared dtype. -/
def dtypeMatches : Dtype → PValue → Bool
  | .dstr, .s _ => true
  | .dint, .i _ => true
  | .dfloat, .f _ => true
  | _, _ => false

theorem coerceCell_matches {d : Dtype} {c : Chars} {v : PValue}
    (h : coerceCell d c = some v) : dtypeMatches d v = true := by
  cases d <;> simp only [coerceCell, Option.some_inj] at h
  · subst h; rfl
  · rcases Option.map_eq_some'.mp h with ⟨n, _, rfl⟩; rfl
  · rcases Option.map_eq_some'.mp h with ⟨x, _, rfl⟩; rfl

theorem coerceCells_length {ds : List Dtype} {cells : List Chars} {r : List PValue}
    (h : coerceCells ds cells = some r) : r.length = ds.length := by
  induction ds generalizing cells r with
  | nil =>
    cases cells with
    | nil => simp only [coerceCells, Option.some_inj] at h; simp [← h]
    | cons c cs => simp [coerceCells] at h
  | cons d ds ih =>
    cases cells with
    | nil =>
      simp only [coerceCells, Option.bind_eq_some, Option.map_eq_some'] at h
      rcases h with ⟨v, _, rr, hrr, rfl⟩
      simp [ih hrr]
    | cons c cs =>
      simp only [coerceCells, Option.bind_eq_some, Option.map_eq_some'] at h
      rcases h with ⟨v, _, rr, hrr, rfl⟩
      simp [ih hrr]

theorem coerceCells_matches {ds : List Dtype} {cells : List Chars} {r : List PValue}
    (h : coerceCells ds cells = some r) :
    ∀ i d v, ds.get? i = some d → r.get? i = some v → dtypeMatches d v = true := by
  induction ds generalizing cells r with
  | nil => intro i d v hd; simp at hd
  | cons d0 ds ih =>
    intro i d v hd hv
    cases cells with
    | nil =>
      simp only [coerceCells, Option.bind_eq_some, Option.map_eq_some'] at h
      rcases h with ⟨w, hw, rr, hrr, rfl⟩
      cases i with
      | zero =>
        simp only [List.get?] at hd hv
        cases hd; cases hv
        exact coerceCell_matches hw
      | succ n => exact ih hrr n d v hd hv
    | cons c cs =>
      simp only [coerceCells, Option.bind_eq_some, Option.map_eq_some'] at h
      rcases h with ⟨w, hw, rr, hrr, rfl⟩
      cases i with
      | zero =>
        simp only [List.get?] at hd hv
        cases hd; cases hv
        exact coerceCell_matches hw
      | succ n => exact ih hrr n d v hd hv

theorem rowsCoerce_mem {ds : List Dtype} {width : Nat} {ls : List Chars}
    {rows : List (List PValue)} (h : rowsCoerce ds width ls = some rows) :
    ∀ r ∈ rows, ∃ cells, coerceCells ds cells = some r := by
  induction ls generalizing rows with
  | nil =>
    simp only [rowsCoerce, Option.some_inj] at h
    subst h; intro r hr; simp at hr
  | cons l ls ih =>
    simp only [rowsCoerce, Option.bind_eq_some, Option.map_eq_some'] at h
    rcases h with ⟨r0, hr0, rest, hrest, rfl⟩
    intro r hr
    rcases List.mem_cons.mp hr with rfl | hmem
    · unfold coerceRecord at hr0
      by_cases hw : width < (splitOnChar ',' l).length
      · rw [if_pos hw] at hr0; exact absurd hr0 (by simp)
      · rw [if_neg hw] at hr0; exact ⟨_, hr0⟩
    · exact ih hrest r hmem

theorem idxOf?_get {name : String} {l : List String} {i : Nat}
    (h : idxOf? name l = some i) : l.get? i = some name := by
  induction l generalizing i with
  | nil => simp [idxOf?] at h
  | cons c cs ih =>
    by_cases hc : c = name
    · subst hc
      simp only [idxOf?, if_pos, Option.some_inj] at h
      subst h; simp
    · simp only [idxOf?, if_neg hc, Option.map_eq_some'] at h
      rcases h with ⟨j, hj, rfl⟩
      simpa using ih hj

theorem idxOf?_lt {name : String} {l : List String} {i : Nat}
    (h : idxOf? name l = some i) : i < l.length :=
  List.get?_eq_some.mp (idxOf?_get h) |>.1

theorem setAt_get_self {r : List PValue} {j : Nat} (v : PValue) (h : j < r.length) :
    (setAt r j v).get? j = some v := by
  induction r generalizing j with
  | nil => simp at h
  | cons x xs ih =>
    cases j with
    | zero => rfl
    | succ n => exact ih (Nat.lt_of_succ_lt_succ h)

theorem setAt_get_ne {r : List PValue} {j i : Nat} (v : PValue) (h : i ≠ j) :
    (setAt r j v).get? i = r.get? i := by
  induction r generalizing i j with
  | nil => cases j <;> rfl
  | cons x xs ih =>
    cases j with
    | zero =>
      cases i with
      | zero => exact absurd rfl h
      | succ n => rfl
    | succ m =>
      cases i with
      | zero => rfl
      | succ n => exact ih fun hnm => h (congrArg Nat.succ hnm)

/-! ### Lemmas: `assignCol` and `readCsvTyped` structure -/

theorem assignCol_spec (t : TypedTable) (name : String) (f : List PValue → PValue)
    (hlen : ∀ r ∈ t.rows, r.length = t.header.length) :
    ∃ j g, (assignCol t name f).header.get? j = some name ∧
      (assignCol t name f).rows = t.rows.map g ∧
      (∀ i v, t.header.get? i = some v → v ≠ name → (assignCol t name f).header.get? i = some v) ∧
      ∀ r ∈ t.rows, (g r).get? j = some (f r) ∧
        ∀ i v, i ≠ j → r.get? i = some v → (g r).get? i = some v := by
  cases hidx : idxOf? name t.header with
  | some i =>
    refine ⟨i, fun r => setAt r i (f r), ?_, ?_, ?_, ?_⟩ <;> simp only [assignCol, hidx]
    · exact idxOf?_get hidx
    · intro i' v hv _; exact hv
    · intro r hr
      have hlt : i < r.length := by rw [hlen r hr]; exact idxOf?_lt hidx
      exact ⟨setAt_get_self _ hlt, fun i' v hne hv => by rw [setAt_get_ne _ hne]; exact hv⟩
  | none =>
    refine ⟨t.header.length, fun r => r ++ [f r], ?_, ?_, ?_, ?_⟩ <;> simp only [assignCol, hidx]
    · exact List.get?_concat_length t.header name
    · intro i v hv _
      have hlt : i < t.header.length := (List.get?_eq_some.mp hv).1
      rw [List.get?_append hlt]; exact hv
    · intro r hr
      constructor
      · have hr' : r.length = t.header.length := hlen r hr
        rw [← hr']
        exact List.get?_concat_length r (f r)
      · intro i v _ hv
        have hlt : i < r.length := (List.get?_eq_some.mp hv).1
        rw [List.get?_append hlt]; exact hv

theorem readCsvTyped_shape {sch : Schema} {pd : List String} {src : Option Chars}
    {t : TypedTable} (h : readCsvTyped sch pd src = .ok t) :
    ∀ r ∈ t.rows, r.length = t.header.length ∧
      ∀ i cname v, t.header.get? i = some cname → r.get? i = some v →
        dtypeMatches (dtypeFor sch cname) v = true := by
  cases src with
  | none => exact absurd h (by simp [readCsvTyped])
  | some cs =>
    simp only [readCsvTyped] at h
    cases hcl : csvLines cs with
    | nil => rw [hcl] at h; exact absurd h (by simp)
    | cons hd ls =>
      rw [hcl] at h
      dsimp only at h
      by_cases hpd : pd.all (fun c => ((splitOnChar ',' hd).map String.mk).contains c) = true
      · rw [if_pos hpd] at h
        cases hrc : rowsCoerce (((splitOnChar ',' hd).map String.mk).map (dtypeFor sch))
            (expectedWidth ((splitOnChar ',' hd).map String.mk).length ls) ls with
        | none => rw [hrc] at h; exact absurd h (by simp)
        | some rows =>
          rw [hrc] at h
          simp only [Except.ok.injEq] at h
          subst h
          intro r hr
          rcases rowsCoerce_mem hrc r hr with ⟨cells, hl⟩
          constructor
          · rw [coerceCells_length hl]; simp
          · intro i cname v hcn hv
            have hds : (((splitOnChar ',' hd).map String.mk).map (dtypeFor sch)).get? i =
                some (dtypeFor sch cname) := by
              rw [List.get?_map]
              simp only at hcn
              rw [hcn]
              rfl
            exact coerceCells_matches hl i _ v hds hv
      · rw [if_neg hpd] at h
        exact absurd h (by simp)

/-! ### Concrete demonstration data -/

/-- Column names of the customers dataset (the keys of the `dtype=` dict
of `CustomerTransformation.transform`). -/
def customerCols : List String :=
  ["customer_id", "customer_unique_id", "customer_zip_code_prefix",
   "customer_city", "customer_state"]

/-- A small customers table of the declared shape. -/
def demoCustomerTable : TypedTable :=
  ⟨customerCols,
   [[.s "c1", .s "u1", .s "01310", .s "sao paulo", .s "SP"],
    [.s "c2", .s "u2", .s "13015", .s "campinas", .s "SP"]]⟩

/-- A products source file with a zero-weight record and a
missing-weight record. -/
def zeroWeightDemo : Chars :=
  ("h1,h2,h3,h4,h5,h6,h7,h8,h9\np1,cat,10.0,20.0,1,0.0,10.0,10.0,10.0\np2,cat,10.0,20.0,1,,10.0,10.0,10.0\n").data

/-- C1 counterexample: with `data` still unset, `export_csv` does not
raise a StateError carrying "no data to export" — the source has no such
guard. -/
theorem export_before_transform_not_stateError :
    CustomerTransformation.export_csv none ["out"] ≠
      Except.error (PyError.stateError "no data to export") := by
  decide

/-- C1 (amended): for every variant, calling `export_csv` before
`transform` fails — but with Python's `AttributeError` from invoking
`.to_csv` on the still-`None` `self.data`, not with a StateError("no data
to export"). -/
theorem export_before_transform_raises_attributeError :
    ∀ (v : Variant) (dir : List String),
      Variant.export_csv v none dir =
        Except.error (PyError.attributeError "NoneType object has no attribute to_csv") := by
  intro v dir
  cases v <;> rfl

/-- C2 evaluation at the failing inputs: `ProductsTransformation` maps a
zero weight to `is_heavy = "Heavy"` (the infinite ratio propagates into
the `> 5000` mask) and a missing weight to `"Light"` (the NaN comparison
is false), so zero/missing weight is not mapped to any distinct
"unknown" sentinel. -/
theorem products_zero_or_missing_weight_no_unknown_sentinel :
    (ProductsTransformation.derive
        ⟨"p1", "cat", .val (PRat.ofInt 10), .val (PRat.ofInt 20), some 1,
         .val (PRat.ofInt 0), .val (PRat.ofInt 10), .val (PRat.ofInt 10),
         .val (PRat.ofInt 10)⟩).is_heavy = "Heavy" ∧
    (ProductsTransformation.derive
        ⟨"p2", "cat", .val (PRat.ofInt 10), .val (PRat.ofInt 20), some 1,
         .nan, .val (PRat.ofInt 10), .val (PRat.ofInt 10),
         .val (PRat.ofInt 10)⟩).is_heavy = "Light" ∧
    (ProductsTransformation.transformRows (some zeroWeightDemo)).map
        (fun rs => rs.map ProductOut.is_heavy) = .ok ["Heavy", "Light"] := by
  refine ⟨by decide, by decide, by decide⟩

/-- C6 counterexample: the CategoryTranslation variant does not write a
file named `product_category_refined` — the source appends a `.csv`
extension. -/
theorem categorytranslation_filename_not_extensionless :
    (match ProductCategoryNameTransformation.export_csv (some demoCustomerTable) ["out"] with
     | .ok r => r.fileName
     | .error _ => "") ≠ "product_category_refined" := by
  decide

/-- C6 (amended): for every variant, `export_csv` after a successful
transform writes the table to the variant's fixed file name (with its
`.csv` extension — the spec's table omits the extension) inside the
output directory, creating the directory with
`mkdir(parents=True, exist_ok=True)`, comma-delimited, with a header
record and no row-index column; the bytes are the header line followed by
the data lines. -/
theorem export_writes_variant_file_with_header_no_index :
    ∀ (v : Variant) (t : TypedTable) (dir : List String),
      Variant.export_csv v (some t) dir =
        Except.ok ⟨dir, Variant.fileName v, true, true, ',', true, false, serializeTable t⟩ ∧
      serializeTable t =
        joinWith ',' (t.header.map String.data) ++ '\n' :: unlinesNL (t.rows.map serializeRow) := by
  intro v t dir
  exact ⟨by cases v <;> rfl, rfl⟩

/-- C9 counterexample: a write that fails after 5 bytes leaves a partial
file at the destination — neither the complete refined file nor an
untouched destination. -/
theorem export_midwrite_leaves_partial_file :
    (exportWriteOutcome demoCustomerTable (some 5)).ok = false ∧
    (exportWriteOutcome demoCustomerTable (some 5)).fileContents ≠ none ∧
    (exportWriteOutcome demoCustomerTable (some 5)).fileContents ≠
      some (serializeTable demoCustomerTable) := by
  refine ⟨by decide, by decide, by decide⟩

/-- C9 (amended): `to_csv` streams straight into the destination file, so
a failure after `k` bytes leaves exactly the `k`-byte prefix of the
refined output as a partial file — writing is not all-or-nothing. -/
theorem export_write_not_atomic_prefix :
    ∀ (t : TypedTable) (k : Nat), k < (serializeTable t).length →
      exportWriteOutcome t (some k) = ⟨some ((serializeTable t).take k), false⟩ ∧
      (serializeTable t).take k ≠ serializeTable t := by
  intro t k hk
  constructor
  · simp only [exportWriteOutcome, writeDirect]
    rw [if_neg (Nat.not_le.mpr hk)]
  · intro he
    have := congrArg List.length he
    rw [List.length_take] at this
    omega

/-- C9 witness: the amended statement at a concrete table and byte
count. -/
theorem export_write_not_atomic_prefix_witness :
    exportWriteOutcome demoCustomerTable (some 5) =
      ⟨some ((serializeTable demoCustomerTable).take 5), false⟩ ∧
    (serializeTable demoCustomerTable).take 5 ≠ serializeTable demoCustomerTable :=
  export_write_not_atomic_prefix demoCustomerTable 5 (by decide)

/-! ### Lemmas: `PRat` values -/

theorem PRat.den_pos_q (a : PRat) : (0 : ℚ) < (a.den : ℚ) := by
  exact_mod_cast a.dpos

theorem PRat.toRat_ofInt (n : Int) : (PRat.ofInt n).toRat = (n : ℚ) := by
  simp [PRat.toRat, PRat.ofInt]

theorem PRat.toRat_addP (a b : PRat) : (a.addP b).toRat = a.toRat + b.toRat := by
  simp only [PRat.toRat, PRat.addP]
  rw [div_add_div _ _ (ne_of_gt a.den_pos_q) (ne_of_gt b.den_pos_q)]
  push_cast
  ring_nf

theorem PRat.toRat_mulP (a b : PRat) : (a.mulP b).toRat = a.toRat * b.toRat := by
  simp only [PRat.toRat, PRat.mulP]
  rw [div_mul_div_comm]
  push_cast
  ring_nf

theorem PRat.toRat_divP (a b : PRat) (hb : b.num ≠ 0) :
    (a.divP b).toRat = a.toRat / b.toRat := by
  rcases lt_trichotomy b.num 0 with hneg | hzero | hpos
  · have hnp : ¬0 < b.num := by omega
    simp only [PRat.toRat, PRat.divP, dif_neg hnp, dif_pos hneg]
    rw [div_div_div_comm]
    have habs : ((b.num.natAbs : ℚ)) = -(b.num : ℚ) := by
      have h1 : (b.num.natAbs : Int) = -b.num := by omega
      have h2 : ((b.num.natAbs : Int) : ℚ) = ((-b.num : Int) : ℚ) := by rw [h1]
      rw [Int.cast_natCast, Int.cast_neg] at h2
      exact h2
    push_cast
    rw [habs]
    field_simp
    ring_nf
  · exact absurd hzero hb
  · simp only [PRat.toRat, PRat.divP, dif_pos hpos]
    rw [div_div_div_comm]
    have habs : ((b.num.natAbs : ℚ)) = (b.num : ℚ) := by
      have h1 : (b.num.natAbs : Int) = b.num := by omega
      have h2 : ((b.num.natAbs : Int) : ℚ) = ((b.num : Int) : ℚ) := by rw [h1]
      rw [Int.cast_natCast] at h2
      exact h2
    push_cast
    rw [habs]
    field_simp
    ring_nf

theorem PRat.blt_iff (a b : PRat) : a.blt b = true ↔ a.toRat < b.toRat := by
  simp only [PRat.blt, decide_eq_true_eq, PRat.toRat]
  rw [div_lt_div_iff a.den_pos_q b.den_pos_q]
  constructor <;> intro h <;> exact_mod_cast h

theorem PRat.num_pos_iff (a : PRat) : 0 < a.num ↔ 0 < a.toRat := by
  simp only [PRat.toRat]
  rw [lt_div_iff a.den_pos_q, zero_mul]
  exact ⟨fun h => by exact_mod_cast h, fun h => by exact_mod_cast h⟩

theorem PRat.num_ne_zero_of_pos {a : PRat} (h : 0 < a.toRat) : a.num ≠ 0 := by
  have := (PRat.num_pos_iff a).mpr h
  omega

/-! ### Lemmas: `PFloat` on plain values -/

theorem PFloat.mul_val (a b : PRat) :
    (PFloat.val a).mul (PFloat.val b) = PFloat.val (a.mulP b) := rfl

theorem PFloat.add_val (a b : PRat) :
    (PFloat.val a).add (PFloat.val b) = PFloat.val (a.addP b) := rfl

theorem PFloat.gt_val (a b : PRat) :
    (PFloat.val a).gt (PFloat.val b) = b.blt a := rfl

theorem PFloat.div_val (a b : PRat) (hb : b.num ≠ 0) :
    (PFloat.val a).div (PFloat.val b) = PFloat.val (a.divP b) := by
  simp only [PFloat.div, if_neg hb]

/-! ### Lemmas: the products transform -/

theorem transformRows_mem {src : Option Chars} {rows : List ProductOut}
    (h : ProductsTransformation.transformRows src = .ok rows) :
    ∀ r ∈ rows, ∃ r0, r = ProductsTransformation.derive r0 := by
  cases src with
  | none => exact absurd h (by simp [ProductsTransformation.transformRows])
  | some cs =>
    simp only [ProductsTransformation.transformRows] at h
    cases hcl : csvLines cs with
    | nil => rw [hcl] at h; exact absurd h (by simp)
    | cons hd ls =>
      rw [hcl] at h
      dsimp only at h
      cases hrp : rowsParseProducts ls with
      | none => rw [hrp] at h; exact absurd h (by simp)
      | some rows0 =>
        rw [hrp] at h
        simp only [Except.ok.injEq] at h
        subst h
        intro r hr
        rcases List.mem_map.mp hr with ⟨r0, _, rfl⟩
        exact ⟨r0, rfl⟩

theorem productHeavyTest_val (r0 : ProductIn) (w l h wd : PRat)
    (hw : r0.product_weight_g = .val w) (hl : r0.product_length_cm = .val l)
    (hh : r0.product_height_cm = .val h) (hwd : r0.product_width_cm = .val wd)
    (hpos : 0 < w.toRat) :
    (productHeavyTest r0 = true ↔
      l.toRat * h.toRat * wd.toRat / (w.toRat / 1000) > 5000) ∧
    productVol r0 = PFloat.val ((l.mulP h).mulP wd) := by
  have hw0 : w.num ≠ 0 := PRat.num_ne_zero_of_pos hpos
  have hvol : productVol r0 = PFloat.val ((l.mulP h).mulP wd) := by
    rw [productVol, hl, hh, hwd, PFloat.mul_val, PFloat.mul_val]
  refine ⟨?_, hvol⟩
  have h1000 : (PRat.ofInt 1000).num ≠ 0 := by simp [PRat.ofInt]
  have hwdiv : r0.product_weight_g.div (PFloat.val (PRat.ofInt 1000)) =
      PFloat.val (w.divP (PRat.ofInt 1000)) := by
    rw [hw, PFloat.div_val _ _ h1000]
  have hdnum : (w.divP (PRat.ofInt 1000)).num ≠ 0 := by
    have : (0 : Int) < (PRat.ofInt 1000).num := by simp [PRat.ofInt]
    simp only [PRat.divP, dif_pos this, PRat.ofInt]
    simpa using hw0
  rw [productHeavyTest, hvol, hwdiv, PFloat.div_val _ _ hdnum, PFloat.gt_val, PRat.blt_iff]
  rw [PRat.toRat_divP _ _ hdnum, PRat.toRat_mulP, PRat.toRat_mulP,
    PRat.toRat_divP _ _ h1000, PRat.toRat_ofInt]
  have hvw : volumetricWeight.toRat = (5000 : ℚ) := by
    rw [volumetricWeight, PRat.toRat_ofInt]; norm_num
  rw [hvw]
  norm_num

/-- A products source record with weight 1000 g and 10 cm sides, behind a
placeholder header record. -/
def prodHeavyDemo : Chars :=
  ("h1,h2,h3,h4,h5,h6,h7,h8,h9\np1,cat,10.0,20.0,1,1000.0,10.0,10.0,10.0\n").data

/-- The stored record the demo file produces. -/
def prodDemoRow : ProductOut :=
  ⟨⟨"p1", "cat", .val ⟨100, 10, by decide⟩, .val ⟨200, 10, by decide⟩, some 1,
    .val ⟨10000, 10, by decide⟩, .val ⟨100, 10, by decide⟩, .val ⟨100, 10, by decide⟩,
    .val ⟨100, 10, by decide⟩⟩, .val ⟨1000000, 1000, by decide⟩, "Light"⟩

/-- C5 : after `ProductsTransformation.transform`, every row's
`product_volume_cc` is `length * height * width`, and on a row whose
weight is the positive rational `w`, `is_heavy` is `"Heavy"` exactly when
`volume / (weight / 1000) > 5000` and `"Light"` otherwise (`is_heavy` is
always one of the two). -/
theorem products_volume_and_is_heavy_threshold :
    ∀ (src : Option Chars) (rows : List ProductOut) (r : ProductOut) (w l h wd : PRat),
      ProductsTransformation.transformRows src = .ok rows → r ∈ rows →
      r.product_weight_g = .val w → r.product_length_cm = .val l →
      r.product_height_cm = .val h → r.product_width_cm = .val wd →
      0 < w.toRat →
      ((r.is_heavy = "Heavy" ∨ r.is_heavy = "Light") ∧
       r.product_volume_cc = PFloat.val ((l.mulP h).mulP wd) ∧
       ((l.mulP h).mulP wd).toRat = l.toRat * h.toRat * wd.toRat ∧
       (r.is_heavy = "Heavy" ↔
         l.toRat * h.toRat * wd.toRat / (w.toRat / 1000) > 5000)) := by
  intro src rows r w l h wd htr hmem hw hl hh hwd hpos
  rcases transformRows_mem htr r hmem with ⟨r0, rfl⟩
  simp only [ProductsTransformation.derive] at hw hl hh hwd ⊢
  obtain ⟨hiff, hvol⟩ := productHeavyTest_val r0 w l h wd hw hl hh hwd hpos
  refine ⟨?_, ?_, ?_, ?_⟩
  · by_cases hc : productHeavyTest r0 = true
    · exact Or.inl (by simp [hc])
    · exact Or.inr (by simp [hc])
  · exact hvol
  · rw [PRat.toRat_mulP, PRat.toRat_mulP]
  · by_cases hc : productHeavyTest r0 = true
    · rw [if_pos hc]
      exact ⟨fun _ => hiff.mp hc, fun _ => rfl⟩
    · rw [if_neg hc]
      constructor
      · intro hbad; exact absurd hbad (by decide)
      · intro hgt; exact absurd (hiff.mpr hgt) hc

/-- C5 witness: the amended scenario at the demo record — weight 1000 g,
dimensions 10 cm, volume 1000 cc, ratio 1000 ≤ 5000, hence "Light" (the
conjunction's iff has a false right-hand side, matching a non-"Heavy"
row). -/
theorem products_volume_witness :
    ((prodDemoRow.is_heavy = "Heavy" ∨ prodDemoRow.is_heavy = "Light") ∧
     prodDemoRow.product_volume_cc =
       PFloat.val ((PRat.mulP (PRat.mulP ⟨100, 10, by decide⟩ ⟨100, 10, by decide⟩)
         ⟨100, 10, by decide⟩)) ∧
     ((PRat.mulP (PRat.mulP ⟨100, 10, by decide⟩ ⟨100, 10, by decide⟩)
         ⟨100, 10, by decide⟩)).toRat =
       PRat.toRat ⟨100, 10, by decide⟩ * PRat.toRat ⟨100, 10, by decide⟩ *
         PRat.toRat ⟨100, 10, by decide⟩ ∧
     (prodDemoRow.is_heavy = "Heavy" ↔
       PRat.toRat ⟨100, 10, by decide⟩ * PRat.toRat ⟨100, 10, by decide⟩ *
         PRat.toRat ⟨100, 10, by decide⟩ /
         (PRat.toRat ⟨10000, 10, by decide⟩ / 1000) > 5000)) :=
  products_volume_and_is_heavy_threshold (some prodHeavyDemo)
    (productRowsOf (ProductsTransformation.transformRows (some prodHeavyDemo)))
    prodDemoRow ⟨10000, 10, by decide⟩ ⟨100, 10, by decide⟩ ⟨100, 10, by decide⟩
    ⟨100, 10, by decide⟩ (by decide) (by decide) rfl rfl rfl rfl
    (by norm_num [PRat.toRat])

/-- C10 : `ProductsTransformation.transform` discards the source header
record and assigns the fixed names positionally: whenever it succeeds the
stored column names are exactly the nine fixed names plus the two derived
columns, and replacing the header record of the source by any other
(newline-free, nonempty) record leaves the result unchanged. -/
theorem products_fixed_output_columns :
    (∀ (src : Option Chars) (t : TypedTable),
        ProductsTransformation.transform src = .ok t → t.header = productsHeader) ∧
    (∀ (h1 h2 : Chars) (rs : List Chars),
        h1 ≠ [] → h2 ≠ [] → '\n' ∉ h1 → '\n' ∉ h2 →
        ProductsTransformation.transform (some (unlinesNL (h1 :: rs))) =
          ProductsTransformation.transform (some (unlinesNL (h2 :: rs)))) := by
  constructor
  · intro src t ht
    simp only [ProductsTransformation.transform] at ht
    cases htr : ProductsTransformation.transformRows src with
    | error e => rw [htr] at ht; exact absurd ht (by simp [Except.map])
    | ok rows =>
      rw [htr] at ht
      simp only [Except.map, Except.ok.injEq] at ht
      rw [← ht]
  · intro h1 h2 rs hne1 hne2 hf1 hf2
    simp only [ProductsTransformation.transform, ProductsTransformation.transformRows]
    rw [csvLines_header rs hne1 hf1, csvLines_header rs hne2 hf2]

/-- C10 witness: the fixed columns at a concrete file, and header
independence between two different header records over the same data
record. -/
theorem products_fixed_output_columns_witness :
    (tableOf (ProductsTransformation.transform (some prodHeavyDemo))).header =
      productsHeader ∧
    ProductsTransformation.transform
        (some (unlinesNL [("x,y").data, ("p1,cat,10.0,20.0,1,1000.0,10.0,10.0,10.0").data])) =
      ProductsTransformation.transform
        (some (unlinesNL [("another,header,entirely").data,
          ("p1,cat,10.0,20.0,1,1000.0,10.0,10.0,10.0").data])) :=
  ⟨products_fixed_output_columns.1 (some prodHeavyDemo) _ (by decide),
   products_fixed_output_columns.2 ("x,y").data ("another,header,entirely").data
     [("p1,cat,10.0,20.0,1,1000.0,10.0,10.0,10.0").data]
     (by decide) (by decide) (by decide) (by decide)⟩

/-- C4 : after `OrderItemsTransformation.transform`, the table has
`price`, `freight_value` and `total_value` columns and every row's
`total_value` is the float sum `price + freight_value`; on plain rational
cells the sum is exact (so in particular within any floating-point
tolerance). -/
theorem orderitems_total_value_eq_price_plus_freight :
    ∀ (src : Option Chars) (t : TypedTable),
      OrderItemsTransformation.transform src = .ok t →
      ∃ pi fi ti, t.header.get? pi = some "price" ∧
        t.header.get? fi = some "freight_value" ∧
        t.header.get? ti = some "total_value" ∧
        ∀ r ∈ t.rows, ∃ a b : PFloat,
          r.get? pi = some (.f a) ∧ r.get? fi = some (.f b) ∧
          r.get? ti = some (.f (a.add b)) ∧
          ∀ p q : PRat, a = .val p → b = .val q →
            r.get? ti = some (.f (.val (p.addP q))) ∧
            (p.addP q).toRat = p.toRat + q.toRat := by
  intro src t h
  simp only [OrderItemsTransformation.transform, bind, Except.bind] at h
  cases hrd : readCsvTyped orderItemsSchema ["shipping_limit_date"] src with
  | error e => rw [hrd] at h; exact absurd h (by simp)
  | ok t0 =>
    rw [hrd] at h
    dsimp only at h
    cases hpi : idxOf? "price" t0.header with
    | none => rw [hpi] at h; exact absurd h (by simp)
    | some pi0 =>
      rw [hpi] at h
      cases hfi : idxOf? "freight_value" t0.header with
      | none => rw [hfi] at h; exact absurd h (by simp)
      | some fi0 =>
        rw [hfi] at h
        simp only [Except.ok.injEq] at h
        subst h
        have hshape := readCsvTyped_shape hrd
        have hlen : ∀ r ∈ t0.rows, r.length = t0.header.length := fun r hr => (hshape r hr).1
        obtain ⟨j, g, hjname, hrows, hpres, hcells⟩ :=
          assignCol_spec t0 "total_value" (fun r => PValue.addF (cellAt r pi0) (cellAt r fi0)) hlen
        have hpn : t0.header.get? pi0 = some "price" := idxOf?_get hpi
        have hfn : t0.header.get? fi0 = some "freight_value" := idxOf?_get hfi
        have hpn' := hpres pi0 "price" hpn (by decide)
        have hfn' := hpres fi0 "freight_value" hfn (by decide)
        have hpij : pi0 ≠ j := by
          intro he
          subst he
          rw [hjname] at hpn'
          exact absurd (Option.some_inj.mp hpn') (by decide)
        have hfij : fi0 ≠ j := by
          intro he
          subst he
          rw [hjname] at hfn'
          exact absurd (Option.some_inj.mp hfn') (by decide)
        refine ⟨pi0, fi0, j, hpn', hfn', hjname, ?_⟩
        intro r hr
        rw [hrows] at hr
        rcases List.mem_map.mp hr with ⟨r0, hr0, rfl⟩
        have hplt : pi0 < r0.length := by rw [hlen r0 hr0]; exact idxOf?_lt hpi
        have hflt : fi0 < r0.length := by rw [hlen r0 hr0]; exact idxOf?_lt hfi
        have hva : r0.get? pi0 = some (r0.get ⟨pi0, hplt⟩) := List.get?_eq_get hplt
        have hvb : r0.get? fi0 = some (r0.get ⟨fi0, hflt⟩) := List.get?_eq_get hflt
        have hma := (hshape r0 hr0).2 pi0 "price" _ hpn hva
        have hmb := (hshape r0 hr0).2 fi0 "freight_value" _ hfn hvb
        have hda : dtypeFor orderItemsSchema "price" = .dfloat := rfl
        have hdb : dtypeFor orderItemsSchema "freight_value" = .dfloat := rfl
        rw [hda] at hma
        rw [hdb] at hmb
        obtain ⟨a, ha⟩ : ∃ a, r0.get ⟨pi0, hplt⟩ = PValue.f a := by
          cases hx : r0.get ⟨pi0, hplt⟩ <;> rw [hx] at hma <;>
            simp [dtypeMatches] at hma
          exact ⟨_, rfl⟩
        obtain ⟨b, hb⟩ : ∃ b, r0.get ⟨fi0, hflt⟩ = PValue.f b := by
          cases hx : r0.get ⟨fi0, hflt⟩ <;> rw [hx] at hmb <;>
            simp [dtypeMatches] at hmb
          exact ⟨_, rfl⟩
        rw [ha] at hva
        rw [hb] at hvb
        obtain ⟨hgj, hgkeep⟩ := hcells r0 hr0
        have hfr : PValue.addF (cellAt r0 pi0) (cellAt r0 fi0) = PValue.f (a.add b) := by
          simp only [cellAt, hva, hvb, Option.getD_some, PValue.addF]
        refine ⟨a, b, hgkeep pi0 _ hpij hva, hgkeep fi0 _ hfij hvb, ?_, ?_⟩
        · rw [hgj, hfr]
        · intro p q hp hq
          subst hp
          subst hq
          rw [hgj, hfr]
          exact ⟨rfl, PRat.toRat_addP p q⟩

/-- A small order-items source file with `price=10.0` and
`freight_value=2.5`. -/
def orderItemsDemo : Chars :=
  ("order_id,order_item_id,product_id,seller_id,shipping_limit_date,price,freight_value\no1,1,p1,s1,2017-01-01,10.0,2.5\n").data

/-- C4 witness: the theorem at the demo file (row `price=10.0`,
`freight_value=2.5`, hence `total_value = 12.5` exactly). -/
theorem orderitems_total_value_witness :
    ∃ pi fi ti,
      (tableOf (OrderItemsTransformation.transform (some orderItemsDemo))).header.get? pi =
        some "price" ∧
      (tableOf (OrderItemsTransformation.transform (some orderItemsDemo))).header.get? fi =
        some "freight_value" ∧
      (tableOf (OrderItemsTransformation.transform (some orderItemsDemo))).header.get? ti =
        some "total_value" ∧
      ∀ r ∈ (tableOf (OrderItemsTransformation.transform (some orderItemsDemo))).rows,
        ∃ a b : PFloat,
          r.get? pi = some (.f a) ∧ r.get? fi = some (.f b) ∧
          r.get? ti = some (.f (a.add b)) ∧
          ∀ p q : PRat, a = .val p → b = .val q →
            r.get? ti = some (.f (.val (p.addP q))) ∧
            (p.addP q).toRat = p.toRat + q.toRat :=
  orderitems_total_value_eq_price_plus_freight (some orderItemsDemo)
    (tableOf (OrderItemsTransformation.transform (some orderItemsDemo))) (by decide)

/-- C3 : after `OrderReviewsTransformation.transform`, every row's
`satisfaction` is `"happy"` exactly when its integer `review_score` is at
least 4 and `"not happy"` otherwise — in particular it always lies in
`{"happy", "not happy"}`. -/
theorem orderreviews_satisfaction_happy_iff_score_ge_4 :
    ∀ (src : Option Chars) (t : TypedTable),
      OrderReviewsTransformation.transform src = .ok t →
      ∃ si sati, t.header.get? si = some "review_score" ∧
        t.header.get? sati = some "satisfaction" ∧
        ∀ r ∈ t.rows, ∃ n : Int,
          r.get? si = some (.i n) ∧
          (r.get? sati = some (.s "happy") ∨ r.get? sati = some (.s "not happy")) ∧
          (r.get? sati = some (.s "happy") ↔ 4 ≤ n) ∧
          (r.get? sati = some (.s "not happy") ↔ n < 4) := by
  intro src t h
  simp only [OrderReviewsTransformation.transform, bind, Except.bind] at h
  cases hrd : readCsvTyped orderReviewsSchema ["review_creation_date", "review_answer_timestamp"] src with
  | error e => rw [hrd] at h; exact absurd h (by simp)
  | ok t0 =>
    rw [hrd] at h
    dsimp only at h
    cases hsi : idxOf? "review_score" t0.header with
    | none => rw [hsi] at h; exact absurd h (by simp)
    | some si0 =>
      rw [hsi] at h
      simp only [Except.ok.injEq] at h
      subst h
      have hshape := readCsvTyped_shape hrd
      have hlen : ∀ r ∈ t0.rows, r.length = t0.header.length := fun r hr => (hshape r hr).1
      obtain ⟨j, g, hjname, hrows, hpres, hcells⟩ :=
        assignCol_spec t0 "satisfaction"
          (fun r => .s (if PValue.geInt (cellAt r si0) 4 then "happy" else "not happy")) hlen
      have hsn : t0.header.get? si0 = some "review_score" := idxOf?_get hsi
      have hsn' := hpres si0 "review_score" hsn (by decide)
      have hsij : si0 ≠ j := by
        intro he
        subst he
        rw [hjname] at hsn'
        exact absurd (Option.some_inj.mp hsn') (by decide)
      refine ⟨si0, j, hsn', hjname, ?_⟩
      intro r hr
      rw [hrows] at hr
      rcases List.mem_map.mp hr with ⟨r0, hr0, rfl⟩
      have hslt : si0 < r0.length := by rw [hlen r0 hr0]; exact idxOf?_lt hsi
      have hv : r0.get? si0 = some (r0.get ⟨si0, hslt⟩) := List.get?_eq_get hslt
      have hms := (hshape r0 hr0).2 si0 "review_score" _ hsn hv
      have hds : dtypeFor orderReviewsSchema "review_score" = .dint := rfl
      rw [hds] at hms
      obtain ⟨n, hn⟩ : ∃ n, r0.get ⟨si0, hslt⟩ = PValue.i n := by
        cases hx : r0.get ⟨si0, hslt⟩ <;> rw [hx] at hms <;>
          simp [dtypeMatches] at hms
        exact ⟨_, rfl⟩
      rw [hn] at hv
      obtain ⟨hgj, hgkeep⟩ := hcells r0 hr0
      have hcell : cellAt r0 si0 = PValue.i n := by
        simp only [cellAt, hv, Option.getD_some]
      refine ⟨n, hgkeep si0 _ hsij hv, ?_, ?_, ?_⟩
      · by_cases hge : 4 ≤ n
        · left
          rw [hgj, hcell]
          simp [PValue.geInt, hge]
        · right
          rw [hgj, hcell]
          simp [PValue.geInt, hge]
      · constructor
        · intro hh
          rw [hgj, hcell] at hh
          by_contra hlt
          simp [PValue.geInt, hlt] at hh
        · intro hge
          rw [hgj, hcell]
          simp [PValue.geInt, hge]
      · constructor
        · intro hh
          rw [hgj, hcell] at hh
          by_contra hge
          simp only [Int.not_lt] at hge
          simp [PValue.geInt, hge] at hh
        · intro hlt
          rw [hgj, hcell]
          have hge : ¬(4 ≤ n) := by omega
          simp [PValue.geInt, hge]

/-- A reviews source file with scores 3 and 5. -/
def orderReviewsDemo : Chars :=
  ("review_id,order_id,review_score,review_comment_title,review_comment_message,review_creation_date,review_answer_timestamp\nr1,o1,3,t,m,2017-01-01,2017-01-02\nr2,o2,5,t,m,2017-01-01,2017-01-02\n").data

/-- C3 witness: the theorem at the demo file (score 3 gives "not happy",
score 5 gives "happy"). -/
theorem orderreviews_satisfaction_witness :
    ∃ si sati,
      (tableOf (OrderReviewsTransformation.transform (some orderReviewsDemo))).header.get? si =
        some "review_score" ∧
      (tableOf (OrderReviewsTransformation.transform (some orderReviewsDemo))).header.get? sati =
        some "satisfaction" ∧
      ∀ r ∈ (tableOf (OrderReviewsTransformation.transform (some orderReviewsDemo))).rows,
        ∃ n : Int,
          r.get? si = some (.i n) ∧
          (r.get? sati = some (.s "happy") ∨ r.get? sati = some (.s "not happy")) ∧
          (r.get? sati = some (.s "happy") ↔ 4 ≤ n) ∧
          (r.get? sati = some (.s "not happy") ↔ n < 4) :=
  orderreviews_satisfaction_happy_iff_score_ge_4 (some orderReviewsDemo)
    (tableOf (OrderReviewsTransformation.transform (some orderReviewsDemo))) (by decide)

/-! ### Round trips -/

/-- The bytes `ProductsTransformation` exports for the demo file. -/
def prodExportedBytes : Chars :=
  match ProductsTransformation.transform (some prodHeavyDemo) with
  | .ok t => serializeTable t
  | .error _ => []

/-- C7 counterexample: the Products variant cannot even re-parse its own
exported file — `transform` succeeds on the source, but running
`transform` on the exported bytes fails (the nine `names=` entries
misalign against the eleven exported columns, so text from `is_heavy`
and decimals land in integer columns), so re-exporting byte-identical
output is impossible. -/
theorem products_roundtrip_reparse_fails :
    (ProductsTransformation.transform (some prodHeavyDemo)).isOk = true ∧
    prodExportedBytes ≠ [] ∧
    (ProductsTransformation.transform (some prodExportedBytes)).isOk = false := by
  refine ⟨by decide, by decide, by decide⟩

/-- A text cell that serializes without quoting: a string free of the
separator and record-terminator characters. -/
def cellOkStr : PValue → Bool
  | .s v => decide (',' ∉ v.data) && decide ('\n' ∉ v.data)
  | _ => false

/-- A customers row of the declared width whose cells are plain text. -/
def rowOkStr (r : List PValue) : Bool :=
  (r.length == 5) && r.all cellOkStr

theorem stringMkData (s : String) : String.mk s.data = s := rfl

theorem joinWith_ne_nil {sep : Char} {ps : List Chars} (h2 : 2 ≤ ps.length) :
    joinWith sep ps ≠ [] := by
  cases ps with
  | nil => simp at h2
  | cons p qs =>
    cases qs with
    | nil => simp at h2
    | cons q rs => exact joinWith_ne_nil_of_two sep p q rs

theorem serializeRow_ne_nil {r : List PValue} (h2 : 2 ≤ r.length) :
    serializeRow r ≠ [] := by
  apply joinWith_ne_nil
  simpa using h2

theorem newline_not_mem_serializeRow {r : List PValue}
    (hfree : ∀ v ∈ r, '\n' ∉ PValue.render v) : '\n' ∉ serializeRow r := by
  intro hm
  rcases mem_joinWith hm with hsep | ⟨p, hp, hcp⟩
  · exact absurd hsep (by decide)
  · rcases List.mem_map.mp hp with ⟨v, hv, rfl⟩
    exact hfree v hv hcp

theorem splitOnChar_serializeRow {r : List PValue} (hne : r ≠ [])
    (hfree : ∀ v ∈ r, ',' ∉ PValue.render v) :
    splitOnChar ',' (serializeRow r) = r.map PValue.render := by
  apply splitOnChar_joinWith
  · simpa using hne
  · intro p hp
    rcases List.mem_map.mp hp with ⟨v, hv, rfl⟩
    exact hfree v hv

theorem coerceCells_render_str (r : List PValue)
    (hall : ∀ v ∈ r, ∃ s, v = PValue.s s) :
    coerceCells (List.replicate r.length .dstr) (r.map PValue.render) = some r := by
  induction r with
  | nil => rfl
  | cons v vs ih =>
    rcases hall v (List.mem_cons_self _ _) with ⟨s, rfl⟩
    have ihv := ih (fun w hw => hall w (List.mem_cons_of_mem _ hw))
    simp only [List.length_cons, List.replicate_succ, List.map_cons, coerceCells, coerceCell,
      PValue.render, stringMkData, Option.some_bind]
    rw [ihv]
    rfl

/-- Unpack a well-formed customers row. -/
theorem rowOkStr_cells {r : List PValue} (h : rowOkStr r = true) :
    r.length = 5 ∧ ∀ v ∈ r, ∃ s, v = PValue.s s ∧ ',' ∉ s.data ∧ '\n' ∉ s.data := by
  rw [rowOkStr, Bool.and_eq_true] at h
  refine ⟨by simpa using h.1, ?_⟩
  intro v hv
  have hc := List.all_eq_true.mp h.2 v hv
  cases v with
  | s s =>
    rw [cellOkStr, Bool.and_eq_true] at hc
    exact ⟨s, rfl, of_decide_eq_true hc.1, of_decide_eq_true hc.2⟩
  | f _ => exact absurd hc (by simp [cellOkStr])
  | i _ => exact absurd hc (by simp [cellOkStr])
  | ni _ => exact absurd hc (by simp [cellOkStr])

/-- The comma split of a serialized well-formed customers row has the
declared width. -/
theorem splitOnChar_serializeRow_length {r : List PValue} (hok : rowOkStr r = true) :
    (splitOnChar ',' (serializeRow r)).length = 5 := by
  obtain ⟨hlen5, hcells⟩ := rowOkStr_cells hok
  have hrne : r ≠ [] := by intro he; rw [he] at hlen5; simp at hlen5
  have hfree : ∀ v ∈ r, ',' ∉ PValue.render v := by
    intro v hv
    rcases hcells v hv with ⟨s, rfl, h1, _⟩
    simpa [PValue.render] using h1
  rw [splitOnChar_serializeRow hrne hfree, List.length_map, hlen5]

theorem coerceRecord_serialize_row (r : List PValue) (hok : rowOkStr r = true) :
    coerceRecord (List.replicate 5 Dtype.dstr) 5 (splitOnChar ',' (serializeRow r)) =
      some r := by
  obtain ⟨hlen5, hcells⟩ := rowOkStr_cells hok
  have hrne : r ≠ [] := by intro he; rw [he] at hlen5; simp at hlen5
  have hfree : ∀ v ∈ r, ',' ∉ PValue.render v := by
    intro v hv
    rcases hcells v hv with ⟨s, rfl, h1, _⟩
    simpa [PValue.render] using h1
  have hslen := splitOnChar_serializeRow_length hok
  unfold coerceRecord
  rw [hslen]
  rw [if_neg (by omega)]
  simp only [Nat.sub_self, List.replicate_zero, List.append_nil, List.length_replicate,
    List.drop_zero]
  rw [splitOnChar_serializeRow hrne hfree, ← hlen5]
  exact coerceCells_render_str r (fun v hv => (hcells v hv).imp fun s hs => hs.1)

theorem expectedWidth_serialize (tr : List (List PValue))
    (hok : ∀ r ∈ tr, rowOkStr r = true) :
    expectedWidth 5 (tr.map serializeRow) = 5 := by
  cases tr with
  | nil => rfl
  | cons r rs =>
    simp only [List.map_cons, expectedWidth]
    rw [splitOnChar_serializeRow_length (hok r (List.mem_cons_self _ _))]
    simp

theorem rowsCoerce_serialize_rows (rows : List (List PValue))
    (hok : ∀ r ∈ rows, rowOkStr r = true) :
    rowsCoerce (List.replicate 5 Dtype.dstr) 5 (rows.map serializeRow) = some rows := by
  induction rows with
  | nil => rfl
  | cons r rs ih =>
    have hcc := coerceRecord_serialize_row r (hok r (List.mem_cons_self _ _))
    simp only [List.map_cons, rowsCoerce, hcc, Option.some_bind]
    rw [ih (fun q hq => hok q (List.mem_cons_of_mem _ hq))]
    rfl

/-- C7 (amended): the round trip holds for the pass-through Customer
variant — on a stored table with the declared customers header and plain
(unquoted) text cells, `transform` on the exported bytes reproduces the
table exactly, so re-exporting is byte-identical.  It fails for the
Products variant, whose `transform` cannot re-parse the variant's own
exported file (see the counterexample). -/
theorem customer_roundtrip_byte_identical :
    ∀ (t : TypedTable), t.header = customerCols → t.rows.all rowOkStr = true →
      CustomerTransformation.transform (some (serializeTable t)) = .ok t ∧
      (CustomerTransformation.transform (some (serializeTable t))).map serializeTable =
        .ok (serializeTable t) := by
  intro t hh hrows
  obtain ⟨th, tr⟩ := t
  simp only at hh
  subst hh
  have hrowfacts : ∀ r ∈ tr, rowOkStr r = true := by
    intro r hr
    exact List.all_eq_true.mp hrows r hr
  have hlines : ∀ l ∈ (joinWith ',' (customerCols.map String.data) :: tr.map serializeRow),
      l ≠ [] ∧ '\n' ∉ l := by
    intro l hl
    rcases List.mem_cons.mp hl with rfl | hl2
    · exact ⟨by decide, by decide⟩
    · rcases List.mem_map.mp hl2 with ⟨r, hr, rfl⟩
      obtain ⟨hlen5, hcells⟩ := rowOkStr_cells (hrowfacts r hr)
      constructor
      · exact serializeRow_ne_nil (by omega)
      · apply newline_not_mem_serializeRow
        intro v hv
        rcases hcells v hv with ⟨s, rfl, _, h2⟩
        simpa [PValue.render] using h2
  have hmain : CustomerTransformation.transform
      (some (serializeTable ⟨customerCols, tr⟩)) = .ok ⟨customerCols, tr⟩ := by
    show readCsvTyped customerSchema [] (some (serializeTable ⟨customerCols, tr⟩)) =
      .ok ⟨customerCols, tr⟩
    simp only [readCsvTyped, serializeTable]
    rw [csvLines_unlinesNL hlines]
    dsimp only
    have hH : (splitOnChar ',' (joinWith ',' (customerCols.map String.data))).map String.mk =
        customerCols := by decide
    rw [hH]
    have hdates : (List.all [] fun c => customerCols.contains c) = true := rfl
    rw [if_pos hdates]
    have hds : customerCols.map (dtypeFor customerSchema) = List.replicate 5 Dtype.dstr := by
      decide
    rw [hds]
    have hlen : customerCols.length = 5 := by decide
    rw [hlen]
    rw [expectedWidth_serialize tr hrowfacts]
    rw [rowsCoerce_serialize_rows tr hrowfacts]
  exact ⟨hmain, by rw [hmain]; rfl⟩

/-- C7 witness: the amended round trip at a concrete two-row customers
table. -/
theorem customer_roundtrip_witness :
    CustomerTransformation.transform (some (serializeTable demoCustomerTable)) =
      .ok demoCustomerTable ∧
    (CustomerTransformation.transform (some (serializeTable demoCustomerTable))).map
        serializeTable = .ok (serializeTable demoCustomerTable) :=
  customer_roundtrip_byte_identical demoCustomerTable (by decide) (by decide)

/-! ### Lemmas: transform success and error taxonomy -/

